import Mathlib

/-!
Shallow embedding of the retry package of duh-rpc/duh.go: the sliding-window
rate estimators (`movingRate` in moving.go, `MovingRate` in budget.go,
`MovingRateRing`), the ratio `budget`, the `IntervalBackOff` calculator and the
`Do` orchestration loop, together with theorems checking the natural-language
specification against them.

Modelling conventions:
* `time.Time` values are nanoseconds since the epoch, as `Nat` (the Go zero
  `time.Time` is `0`, so `IsZero` becomes `= 0`).
* `time.Duration` values are nanoseconds, as `Int` where signs can occur.
* Go `float64` results are idealized as exact rationals; the IEEE special
  values produced by the code (NaN from `math.NaN()` or `0/0`, infinities from
  division by zero) are made explicit by the `GoFloat` type, whose comparison
  and division operations follow IEEE-754 semantics on those cases.
* Functions that can panic (failed assertions, out-of-range slice indexing,
  division by a zero divisor) return `Option`, with `none` for the panic.
* Statefulness (pointer receivers, the shared `rand.Rand`) is explicit state
  passing: each mutating method returns the updated value.
-/

attribute [local semireducible] Rat.add Rat.mul Rat.inv Rat.sub

/-- Go float64 values as produced by the retry code: exact rationals plus the
IEEE special values NaN and the two infinities. -/
inductive GoFloat where
  | nan : GoFloat
  | inf : GoFloat
  | neginf : GoFloat
  | val : ℚ → GoFloat
deriving DecidableEq, Repr

/-- IEEE `<` on `GoFloat`: any comparison with NaN is false; the infinities
compare in the usual way. -/
def GoFloat.lt : GoFloat → GoFloat → Bool
  | .nan, _ => false
  | _, .nan => false
  | .neginf, .neginf => false
  | .neginf, _ => true
  | .inf, _ => false
  | .val _, .inf => true
  | .val _, .neginf => false
  | .val a, .val b => decide (a < b)

/-- IEEE division on `GoFloat`: a nonzero finite value divided by zero is a
signed infinity, `0/0` is NaN, NaN propagates. -/
def GoFloat.div : GoFloat → GoFloat → GoFloat
  | .nan, _ => .nan
  | _, .nan => .nan
  | .inf, .inf => .nan
  | .inf, .neginf => .nan
  | .neginf, .inf => .nan
  | .neginf, .neginf => .nan
  | .inf, .val b => if b < 0 then .neginf else .inf
  | .neginf, .val b => if b < 0 then .inf else .neginf
  | .val _, .inf => .val 0
  | .val _, .neginf => .val 0
  | .val a, .val b =>
      if b = 0 then
        if 0 < a then .inf else if a < 0 then .neginf else .nan
      else .val (a / b)

/-- Division of two exact Go floats, as used in `count()/second()`. -/
def goDivQ (a b : ℚ) : GoFloat := GoFloat.div (.val a) (.val b)

/-- Nanoseconds in `time.Second`. -/
def nsec : ℕ := 1000000000

/-- `timeRoundDown` from moving.go: round a time down to the previous multiple
of the duration `d` (Go's `Round` returns `t` unchanged for `d <= 0`). -/
def timeRoundDown (t d : ℕ) : ℕ :=
  if d = 0 then t else t - t % d

/-- `roundDown` from budget.go: round a time down to the nearest second. -/
def roundDown (t : ℕ) : ℕ := timeRoundDown t nsec

/-- Sum of a Go `[]int` accumulated into a float64, idealized as `ℚ`. -/
def sumQ (l : List ℤ) : ℚ := ((l.foldl (· + ·) 0 : ℤ) : ℚ)

/-- `mr.counts[len(mr.counts)-1] += n`: add to the last element of a slice;
`none` is the index-out-of-range panic on an empty slice. -/
def addLast (l : List ℤ) (n : ℤ) : Option (List ℤ) :=
  match l.getLast? with
  | none => none
  | some x => some (l.dropLast ++ [x + n])

/-! ### movingRate (moving.go): the original resizing-slice estimator -/

/-- The `movingRate` struct of moving.go. `newMovingRate` and every in-repo
construction set `BucketLength` to one second; it is kept as a field, as in the
source. -/
structure movingRate where
  BucketLength : ℕ
  BucketNum : ℕ
  counts : List ℤ
  lastUpdate : ℕ
deriving DecidableEq, Repr

/-- `newMovingRate()` from moving.go. -/
def newMovingRate : movingRate :=
  { BucketLength := nsec, BucketNum := 60, counts := [], lastUpdate := 0 }

/-- `movingRate.count`: weighted sum of the buckets, the oldest bucket scaled
by the fraction of its second still inside the window once the history is
fully initialized. -/
def movingRate.count (mr : movingRate) : ℚ :=
  if mr.counts.length ≤ mr.BucketNum then
    sumQ mr.counts
  else
    let oldestFraction : ℚ :=
      1 - ((mr.lastUpdate - timeRoundDown mr.lastUpdate mr.BucketLength : ℕ) : ℚ) /
        (mr.BucketLength : ℚ)
    oldestFraction * ((mr.counts.headI : ℤ) : ℚ) + sumQ mr.counts.tail

/-- `movingRate.second`: seconds of history covered by the buckets. -/
def movingRate.second (mr : movingRate) : ℚ :=
  if mr.counts.length = 0 then 0
  else if mr.counts.length ≤ mr.BucketNum then
    (((mr.counts.length - 1) * mr.BucketLength +
      (mr.lastUpdate - timeRoundDown mr.lastUpdate mr.BucketLength) : ℕ) : ℚ) / (nsec : ℚ)
  else ((mr.BucketNum * mr.BucketLength : ℕ) : ℚ) / (nsec : ℚ)

/-- `movingRate.shift`: append `min n (BucketNum+1)` zeroed buckets and drop
any buckets beyond the `BucketNum+1` capacity from the front.  (The
`lastUpdate` it sets is immediately overwritten by `forward`'s deferred
assignment, exactly as in the source.) -/
def movingRate.shift (mr : movingRate) (n : ℕ) : movingRate :=
  let n' := min n (mr.BucketNum + 1)
  let counts := mr.counts ++ List.replicate n' 0
  let counts := counts.drop (counts.length - (mr.BucketNum + 1))
  { mr with counts := counts,
            lastUpdate := timeRoundDown mr.lastUpdate mr.BucketLength + n' * mr.BucketLength }

/-- `movingRate.forward`: advance the window to time `t`; the deferred
assignment sets `lastUpdate := t` on every path.  `none` is the
`assertion failure: n = ...` panic (which also absorbs Go's division-by-zero
panic when `BucketLength = 0`, since then `n = 0`). -/
def movingRate.forward (mr : movingRate) (t : ℕ) : Option movingRate :=
  if mr.lastUpdate = 0 then
    some { mr with counts := [0], lastUpdate := t }
  else
    let rt := timeRoundDown t mr.BucketLength
    if rt ≤ mr.lastUpdate then some { mr with lastUpdate := t }
    else
      let n := (rt - timeRoundDown mr.lastUpdate mr.BucketLength) / mr.BucketLength
      if n = 0 then none
      else some { mr.shift n with lastUpdate := t }

/-- `movingRate.Add`: ignore times before `lastUpdate`, otherwise advance the
window and add `n` to the newest bucket. -/
def movingRate.Add (mr : movingRate) (t : ℕ) (n : ℤ) : Option movingRate :=
  if t < mr.lastUpdate then some mr
  else
    (mr.forward t).bind fun mr' =>
      (addLast mr'.counts n).map fun counts' => { mr' with counts := counts' }

/-- `movingRate.Rate`: NaN for times before `lastUpdate`, otherwise advance
the window and return `count()/second()` together with the updated state. -/
def movingRate.Rate (mr : movingRate) (t : ℕ) : Option (GoFloat × movingRate) :=
  if t < mr.lastUpdate then some (.nan, mr)
  else (mr.forward t).map fun mr' => (goDivQ mr'.count mr'.second, mr')

/-! ### MovingRate (budget.go): the resizing-slice estimator with clamp -/

/-- The `MovingRate` struct of budget.go.  The `pos` field is kept but, as in
the live code, never read or written. -/
structure MovingRate where
  lastUpdate : ℕ
  buckets : List ℤ
  pos : ℤ
  numBuckets : ℕ
deriving DecidableEq, Repr

/-- `NewMovingRate` from budget.go. -/
def NewMovingRate (numBuckets : ℕ) : MovingRate :=
  { lastUpdate := 0, buckets := [], pos := 0, numBuckets := numBuckets }

/-- `MovingRate.sumBuckets`: weighted bucket sum (the stray debug `Printf` in
the source has no effect on the value). -/
def MovingRate.sumBuckets (mr : MovingRate) : ℚ :=
  if mr.buckets.length ≤ mr.numBuckets then
    sumQ mr.buckets
  else
    let weight : ℚ :=
      1 - ((mr.lastUpdate - roundDown mr.lastUpdate : ℕ) : ℚ) / (nsec : ℚ)
    weight * ((mr.buckets.headI : ℤ) : ℚ) + sumQ mr.buckets.tail

/-- `MovingRate.secondsInWindow`: seconds of rate information, clamped below
at one second while the history is not yet full. -/
def MovingRate.secondsInWindow (mr : MovingRate) : ℚ :=
  if mr.buckets.length ≤ mr.numBuckets then
    let d : ℕ := (mr.buckets.length - 1) * nsec + (mr.lastUpdate - roundDown mr.lastUpdate)
    if d < nsec then 1 else ((d : ℕ) : ℚ) / (nsec : ℚ)
  else ((mr.numBuckets * nsec : ℕ) : ℚ) / (nsec : ℚ)

/-- `MovingRate.shiftWindow`: advance the window to `now`; the deferred
assignment sets `lastUpdate := now` on every path.  `none` is the
`assert failed: adv = ...` panic. -/
def MovingRate.shiftWindow (mr : MovingRate) (now : ℕ) : Option MovingRate :=
  if mr.lastUpdate = 0 then
    some { mr with buckets := [0], lastUpdate := now }
  else
    let rt := roundDown now
    if rt ≤ mr.lastUpdate then some { mr with lastUpdate := now }
    else
      let adv := (rt - roundDown mr.lastUpdate) / nsec
      if adv = 0 then none
      else
        let adv := min adv (mr.numBuckets + 1)
        let buckets := mr.buckets ++ List.replicate adv 0
        let buckets := buckets.drop (buckets.length - (mr.numBuckets + 1))
        some { mr with buckets := buckets, lastUpdate := now }

/-- `MovingRate.Add` from budget.go. -/
def MovingRate.Add (mr : MovingRate) (t : ℕ) (n : ℤ) : Option MovingRate :=
  if t < mr.lastUpdate then some mr
  else
    (mr.shiftWindow t).bind fun mr' =>
      (addLast mr'.buckets n).map fun buckets' => { mr' with buckets := buckets' }

/-- `MovingRate.Rate` from budget.go. -/
def MovingRate.Rate (mr : MovingRate) (t : ℕ) : Option (GoFloat × MovingRate) :=
  if t < mr.lastUpdate then some (.nan, mr)
  else (mr.shiftWindow t).map fun mr' =>
    (goDivQ mr'.sumBuckets mr'.secondsInWindow, mr')

/-! ### MovingRateRing (the canonical fixed ring-buffer estimator) -/

/-- The `MovingRateRing` struct. -/
structure MovingRateRing where
  last : ℕ
  buckets : List ℤ
  numBuckets : ℕ
  pos : ℕ
deriving DecidableEq, Repr

/-- `NewMovingRateRing`: a zeroed ring of `numBuckets + 1` buckets. -/
def NewMovingRateRing (numBuckets : ℕ) : MovingRateRing :=
  { last := 0, buckets := List.replicate (numBuckets + 1) 0, numBuckets := numBuckets, pos := 0 }

/-- The zeroing loop of `MovingRateRing.shiftWindow`: starting just after
`pos`, clear `n` consecutive ring slots (indices taken modulo `len`). -/
def ringZero (len : ℕ) : ℕ → ℕ → List ℤ → List ℤ
  | _, 0, b => b
  | pos, n + 1, b =>
      let p := (pos + 1) % len
      ringZero len p n (b.set p 0)

/-- `MovingRateRing.shiftWindow`: advance the ring to `now`; the deferred
assignment sets `last := now` on every path.  `none` is the
`assert failed: adv = ...` panic, and also Go's modulo-by-zero panic when the
bucket slice is empty and an advance is needed. -/
def MovingRateRing.shiftWindow (mr : MovingRateRing) (now : ℕ) : Option MovingRateRing :=
  let rt := roundDown now
  if mr.last = 0 ∨ rt ≤ mr.last then some { mr with last := now }
  else
    let adv := (rt - roundDown mr.last) / nsec
    if adv = 0 then none
    else
      let adv := min adv (mr.numBuckets + 1)
      if mr.buckets.length = 0 then none
      else
        some { mr with
          buckets := ringZero mr.buckets.length mr.pos adv mr.buckets,
          pos := (mr.pos + adv) % mr.buckets.length,
          last := now }

/-- `MovingRateRing.Add`: ignore times before `last`, otherwise advance the
window and add `hits` to the bucket at `pos` (`none` is the index
out-of-range panic on an empty bucket slice). -/
def MovingRateRing.Add (mr : MovingRateRing) (now : ℕ) (hits : ℤ) : Option MovingRateRing :=
  if now < mr.last then some mr
  else
    (mr.shiftWindow now).bind fun mr' =>
      if h : mr'.pos < mr'.buckets.length then
        some { mr' with buckets := mr'.buckets.set mr'.pos (mr'.buckets.get ⟨mr'.pos, h⟩ + hits) }
      else none

/-- Accumulator of the summation loop in `MovingRateRing.Rate`: the first
nonzero bucket value seen, the sum of the later nonzero buckets, and the count
of nonzero buckets. -/
structure RingSum where
  first : ℚ
  sum : ℚ
  bucketsUsed : ℕ
deriving DecidableEq, Repr

/-- The summation loop of `MovingRateRing.Rate`: walk the ring once starting
just after `pos`, skipping zero buckets; the first nonzero bucket is kept
aside in `first` for weighting. -/
def ringCollect (buckets : List ℤ) : ℕ → ℕ → RingSum → RingSum
  | _, 0, acc => acc
  | pos, n + 1, acc =>
      let p := (pos + 1) % buckets.length
      let v := buckets.getD p 0
      if v = 0 then ringCollect buckets p n acc
      else if acc.first = 0 then
        ringCollect buckets p n { acc with first := (v : ℚ), bucketsUsed := acc.bucketsUsed + 1 }
      else
        ringCollect buckets p n { acc with sum := acc.sum + (v : ℚ), bucketsUsed := acc.bucketsUsed + 1 }

/-- `MovingRateRing.Rate`: NaN for times before `last`; otherwise advance the
window, then divide the (possibly weighted) bucket sum by the seconds in the
window, clamped below at one second. -/
def MovingRateRing.Rate (mr : MovingRateRing) (now : ℕ) : Option (GoFloat × MovingRateRing) :=
  if now < mr.last then some (.nan, mr)
  else (mr.shiftWindow now).map fun mr' =>
    let acc := ringCollect mr'.buckets mr'.pos mr'.buckets.length ⟨0, 0, 0⟩
    let frac : ℕ := mr'.last - roundDown mr'.last
    let p : ℚ × ℤ :=
      if acc.bucketsUsed < mr'.buckets.length then
        (acc.sum + acc.first, ((acc.bucketsUsed : ℤ) - 1) * (nsec : ℤ) + (frac : ℤ))
      else
        (acc.sum + (1 - (frac : ℚ) / (nsec : ℚ)) * acc.first, (mr'.numBuckets : ℤ) * (nsec : ℤ))
    let seconds : ℤ := if p.2 < (nsec : ℤ) then (nsec : ℤ) else p.2
    (goDivQ p.1 ((seconds : ℚ) / (nsec : ℚ)), mr')

/-! ### Drivers for concrete scenarios -/

/-- Fold a list of `(time, hits)` pairs through `movingRate.Add`. -/
def movingRate.addSeq (mr : movingRate) (l : List (ℕ × ℤ)) : Option movingRate :=
  l.foldlM (fun s p => s.Add p.1 p.2) mr

/-- Fold a list of `(time, hits)` pairs through `MovingRate.Add`. -/
def MovingRate.addSeq (mr : MovingRate) (l : List (ℕ × ℤ)) : Option MovingRate :=
  l.foldlM (fun s p => s.Add p.1 p.2) mr

/-- Fold a list of `(time, hits)` pairs through `MovingRateRing.Add`. -/
def MovingRateRing.addSeq (mr : MovingRateRing) (l : List (ℕ × ℤ)) : Option MovingRateRing :=
  l.foldlM (fun s p => s.Add p.1 p.2) mr

/-- The call pattern of the repo's estimator tests: starting at time `t0`,
advance by one second per group and make `g` separate `Add` calls of one hit
each for a group of size `g`; returns the `(time, hits)` pairs and the final
time. -/
def groupCalls (t0 : ℕ) (groups : List ℕ) : List (ℕ × ℤ) × ℕ :=
  groups.foldl
    (fun acc g =>
      let t := acc.2 + nsec
      (acc.1 ++ List.replicate g (t, (1 : ℤ)), t))
    ([], t0)

/-- The start time of the estimator tests: a time lying 0.2 seconds after a
second boundary (2018-02-22 22:24:53.2 UTC in the source, simplified to 100.2
seconds after the epoch; only the fractional part matters). -/
def t₀ : ℕ := 100 * nsec + 200000000

/-! ### budget (the ratio budget) and noOpBudget -/

/-- Modelled from the spec: the `Rate` estimator type behind `NewBudget`
(`success: NewRate(60)`, `failure: NewRate(60)`) is not among the provided
source files — only its use sites in the `budget` type are.  Per the design
notes the canonical estimator is the allocation-free ring-buffer form, so
`Rate` is modelled as `MovingRateRing` and `NewRate` as `NewMovingRateRing`. -/
abbrev RateEst := MovingRateRing

/-- Modelled from the spec: `NewRate(n)` constructs the canonical ring
estimator with an `n`-bucket window. -/
def NewRate (n : ℕ) : RateEst := NewMovingRateRing n

/-- The `budget` struct: a failure/success ratio threshold and the two rate
estimators (the mutex serializes access and has no sequential content). -/
structure budgetState where
  ratio : ℚ
  success : RateEst
  failure : RateEst

/-- `NewBudget(ratio)`: one-minute windows for both estimators. -/
def NewBudget (ratio : ℚ) : budgetState :=
  { ratio := ratio, success := NewRate 60, failure := NewRate 60 }

/-- `budget.Failure`: record failures on the failure estimator. -/
def budgetState.Failure (b : budgetState) (now : ℕ) (hits : ℤ) : Option budgetState :=
  (b.failure.Add now hits).map fun f => { b with failure := f }

/-- `budget.Success`: record successes on the success estimator. -/
def budgetState.Success (b : budgetState) (now : ℕ) (hits : ℤ) : Option budgetState :=
  (b.success.Add now hits).map fun s => { b with success := s }

/-- `budget.IsOver`: no failures means not over budget; otherwise over budget
iff the ratio of the failure rate to the success rate exceeds the configured
ratio (both `Rate` calls advance their estimator, hence the returned state). -/
def budgetState.IsOver (b : budgetState) (now : ℕ) : Option (Bool × budgetState) :=
  (b.failure.Rate now).bind fun fp =>
    (b.success.Rate now).bind fun sp =>
      let failureRate := fp.1
      let successRate := sp.1
      let over :=
        if failureRate = GoFloat.val 0 then false
        else GoFloat.lt (GoFloat.val b.ratio) (GoFloat.div failureRate successRate)
      some (over, { b with failure := fp.2, success := sp.2 })

/-! ### IntervalBackOff and Explain -/

/-- A deterministic model of the shared `*rand.Rand`: the stream of successive
`Float64()` samples and a cursor for how many have been consumed. -/
structure RandState where
  seq : ℕ → ℚ
  idx : ℕ

/-- Draw the next `Float64()` sample. -/
def RandState.next (rs : RandState) : ℚ × RandState :=
  (rs.seq rs.idx, { rs with idx := rs.idx + 1 })

/-- Go `float64`-to-`time.Duration` conversion: truncation toward zero. -/
def goDur (q : ℚ) : ℤ :=
  if q < 0 then -(⌊-q⌋) else ⌊q⌋

/-- The `IntervalBackOff` struct.  `Rand = none` is a nil `Rand` (no jitter);
otherwise the field carries the modelled PRNG state that the pointer shares. -/
structure IntervalBackOff where
  Min : ℤ
  Max : ℤ
  Factor : ℚ
  Jitter : ℚ
  Rand : Option RandState

/-- `IntervalBackOff.Next`: exponential backoff with optional jitter, clamped
to the interval `[Min, Max]`; returns the duration and the (possibly
advanced) backoff value. -/
def IntervalBackOff.Next (b : IntervalBackOff) (attempts : ℕ) : ℤ × IntervalBackOff :=
  let d : ℤ := goDur ((b.Min : ℚ) * b.Factor ^ attempts)
  let s : ℤ × IntervalBackOff :=
    match b.Rand with
    | none => (d, b)
    | some rs =>
        let upper : ℚ := (d : ℚ) + (d : ℚ) * b.Jitter
        let lower : ℚ := (d : ℚ) - (d : ℚ) * b.Jitter
        let r := rs.next
        (goDur (lower + r.1 * (upper - lower)), { b with Rand := some r.2 })
  if b.Max < s.1 then (b.Max, s.2)
  else if s.1 < b.Min then (b.Min, s.2)
  else s

/-- The `BackOffExplain` struct. -/
structure BackOffExplain where
  RangeMin : ℤ
  RangeMax : ℤ
  BackOff : ℤ
  PowerOf : ℚ
  WithJitter : ℤ
  Attempt : ℕ
deriving DecidableEq

/-- `IntervalBackOff.Explain`: the decomposed backoff calculation; when a
random source is configured the jittered value consumes one sample from it
(the zero value of `BackOffExplain` leaves the jitter fields at zero
otherwise). -/
def IntervalBackOff.Explain (b : IntervalBackOff) (attempt : ℕ) : BackOffExplain × IntervalBackOff :=
  let powerOf : ℚ := b.Factor ^ attempt
  let backOff : ℤ := goDur ((b.Min : ℚ) * powerOf)
  match b.Rand with
  | none =>
      ({ RangeMin := 0, RangeMax := 0, BackOff := backOff, PowerOf := powerOf,
         WithJitter := 0, Attempt := attempt }, b)
  | some rs =>
      let percent : ℚ := (backOff : ℚ) * b.Jitter
      let rangeMin : ℤ := goDur ((backOff : ℚ) - percent)
      let rangeMax : ℤ := goDur ((backOff : ℚ) + percent)
      let r := rs.next
      ({ RangeMin := rangeMin, RangeMax := rangeMax, BackOff := backOff, PowerOf := powerOf,
         WithJitter := goDur ((rangeMin : ℚ) + r.1 * ((rangeMax - rangeMin : ℤ) : ℚ)),
         Attempt := attempt }, { b with Rand := some r.2 })

/-! ### The Do orchestration loop -/

/-- A Go error as `Do` observes it: an identity tag plus the optional integer
code that `errors.As` + `duh.Error.Code()` would extract (`none` when the
error is not a `duh.Error`). -/
structure GoErr where
  id : ℕ
  code : Option ℤ
deriving DecidableEq

/-- The retry `Policy` fields that decide control flow.  The `Interval`
strategy only determines unobservable sleep lengths, and the `Budget` is
modelled by the `isOver` oracle and the recorded-hit counters of `DoTrace`,
so neither is a field here. -/
structure Policy where
  OnCodes : Option (List ℤ)
  Attempts : ℕ
deriving DecidableEq

/-- `shouldRetry` from retry.go: with no configured code list every error is
retried; with one, only errors carrying a listed code are.  (The `err == nil`
assertion panic is unreachable here because `Do` only calls it with a non-nil
error, which the argument type encodes.) -/
def shouldRetry (policy : Policy) (err : GoErr) : Bool :=
  match policy.OnCodes with
  | some codes =>
      match err.code with
      | some c => codes.contains c
      | none => false
  | none => true

/-- Observable events of one `Do` run: the attempt numbers passed to the
operation in order, and how many `Budget.Success` / `Budget.Failure`
recordings were made. -/
structure DoTrace where
  calls : List ℕ
  succHits : ℕ
  failHits : ℕ
deriving DecidableEq

/-- How a `Do` run ends: with the context's cancellation error, or with the
operation outcome `err` (`none` is a nil error). -/
inductive DoOutcome where
  | ctxErr : DoOutcome
  | ret : Option GoErr → DoOutcome
deriving DecidableEq

/-- The loop body of `Do`, determinized: `cancelled i` tells whether
`ctx.Done()` is ready and `isOver i` what `Budget.IsOver(time.Now())` returns
on the `i`-th loop iteration; `op` maps the attempt number to the operation's
result.  `fuel` bounds the number of iterations modelled; `none` means the
loop did not finish within `fuel` iterations. -/
def doLoop (p : Policy) (op : ℕ → Option GoErr) (cancelled isOver : ℕ → Bool) :
    ℕ → ℕ → ℕ → DoTrace → Option (DoOutcome × DoTrace)
  | 0, _, _, _ => none
  | fuel + 1, iter, attempt, tr =>
      if cancelled iter then some (.ctxErr, tr)
      else if isOver iter then
        doLoop p op cancelled isOver fuel (iter + 1) (attempt + 1) tr
      else
        match op attempt with
        | none =>
            some (.ret none,
              { tr with calls := tr.calls ++ [attempt], succHits := tr.succHits + 1 })
        | some err =>
            let tr := { tr with calls := tr.calls ++ [attempt] }
            if p.Attempts ≠ 0 ∧ p.Attempts ≤ attempt then
              some (.ret (some err), { tr with succHits := tr.succHits + 1 })
            else
              let tr := { tr with failHits := tr.failHits + 1 }
              if shouldRetry p err then
                doLoop p op cancelled isOver fuel (iter + 1) (attempt + 1) tr
              else some (.ret (some err), tr)

/-- `Do(ctx, p, op)`: run the loop from attempt 1 with an empty trace. -/
def Do (p : Policy) (op : ℕ → Option GoErr) (cancelled isOver : ℕ → Bool) (fuel : ℕ) :
    Option (DoOutcome × DoTrace) :=
  doLoop p op cancelled isOver fuel 0 1 ⟨[], 0, 0⟩

/-! ### Theorems -/

/-- C5: for the ring estimator with window size 10 and one-second advances
between groups of single-hit `Add` calls, a single group of 5 hits yields
`Rate = 5.00` at that time, and the groups 2,2,2,2 (aged out), 5 (partially
weighted), then ten groups of 1 yield `Rate = 1.40`. -/
theorem ringConcreteScenarios :
    ((((NewMovingRateRing 10).addSeq (groupCalls t₀ [5]).1).bind fun s =>
        (s.Rate (groupCalls t₀ [5]).2).map Prod.fst) = some (GoFloat.val 5)) ∧
    ((((NewMovingRateRing 10).addSeq
          (groupCalls t₀ [2, 2, 2, 2, 5, 1, 1, 1, 1, 1, 1, 1, 1, 1, 1]).1).bind fun s =>
        (s.Rate (groupCalls t₀ [2, 2, 2, 2, 5, 1, 1, 1, 1, 1, 1, 1, 1, 1, 1]).2).map Prod.fst) =
      some (GoFloat.val (7 / 5))) :=
  ⟨by decide, by decide⟩

/-- C2, counterexample: the three estimator variants do not return equal
`Rate` results on every call sequence.  On the single group of 5 one-hit
`Add` calls 0.2 s into a second, `movingRate` divides by the 0.2 s of
sub-second history and returns 25.00, while `MovingRateRing` (like
`MovingRate`) clamps the divisor at one second and returns 5.00. -/
theorem variantsDisagree :
    ((({ BucketLength := nsec, BucketNum := 10, counts := [], lastUpdate := 0 } :
          movingRate).addSeq (groupCalls t₀ [5]).1).bind fun s =>
        (s.Rate (groupCalls t₀ [5]).2).map Prod.fst) = some (GoFloat.val 25) ∧
    (((NewMovingRateRing 10).addSeq (groupCalls t₀ [5]).1).bind fun s =>
        (s.Rate (groupCalls t₀ [5]).2).map Prod.fst) = some (GoFloat.val 5) ∧
    ((({ BucketLength := nsec, BucketNum := 10, counts := [], lastUpdate := 0 } :
          movingRate).addSeq (groupCalls t₀ [5]).1).bind fun s =>
        (s.Rate (groupCalls t₀ [5]).2).map Prod.fst) ≠
      (((NewMovingRateRing 10).addSeq (groupCalls t₀ [5]).1).bind fun s =>
        (s.Rate (groupCalls t₀ [5]).2).map Prod.fst) :=
  ⟨by decide, by decide, by decide⟩

/-- C2, amended: the variants agree only situationally, not universally.  On
the single-group scenario the two newer variants (`MovingRate` and
`MovingRateRing`) agree on 5.00 while `movingRate` returns 25.00; on the
dense shift-window scenario all three agree on 1.40. -/
theorem variantsAgreeSituationally :
    (((NewMovingRate 10).addSeq (groupCalls t₀ [5]).1).bind fun s =>
        (s.Rate (groupCalls t₀ [5]).2).map Prod.fst) = some (GoFloat.val 5) ∧
    ((((NewMovingRate 10).addSeq
          (groupCalls t₀ [2, 2, 2, 2, 5, 1, 1, 1, 1, 1, 1, 1, 1, 1, 1]).1).bind fun s =>
        (s.Rate (groupCalls t₀ [2, 2, 2, 2, 5, 1, 1, 1, 1, 1, 1, 1, 1, 1, 1]).2).map Prod.fst) =
      some (GoFloat.val (7 / 5))) ∧
    ((((NewMovingRateRing 10).addSeq
          (groupCalls t₀ [2, 2, 2, 2, 5, 1, 1, 1, 1, 1, 1, 1, 1, 1, 1]).1).bind fun s =>
        (s.Rate (groupCalls t₀ [2, 2, 2, 2, 5, 1, 1, 1, 1, 1, 1, 1, 1, 1, 1]).2).map Prod.fst) =
      some (GoFloat.val (7 / 5))) ∧
    ((((({ BucketLength := nsec, BucketNum := 10, counts := [], lastUpdate := 0 } :
          movingRate)).addSeq
          (groupCalls t₀ [2, 2, 2, 2, 5, 1, 1, 1, 1, 1, 1, 1, 1, 1, 1]).1).bind fun s =>
        (s.Rate (groupCalls t₀ [2, 2, 2, 2, 5, 1, 1, 1, 1, 1, 1, 1, 1, 1, 1]).2).map Prod.fst) =
      some (GoFloat.val (7 / 5))) :=
  ⟨by decide, by decide, by decide, by decide⟩

/-- C1: with a cap of 3 attempts and an always-failing retryable operation,
`Do` does return the last (3rd) error, but on the capped failing attempt it
calls `Budget.Success`, not `Budget.Failure`: the run records 2 failure hits
(attempts 1 and 2) and 1 success hit (the failing capped attempt), where the
claim requires a failure hit for every failed attempt including the capped
one. -/
theorem capRecordsSuccessHit :
    Do ⟨none, 3⟩ (fun a => some ⟨a, none⟩) (fun _ => false) (fun _ => false) 3 =
      some (.ret (some ⟨3, none⟩), ⟨[1, 2, 3], 1, 2⟩) := by
  decide

/-- C4: with `Attempts = 3`, no code allowlist, a never-cancelled context, a
never-over budget and an operation failing on every invocation, `Do` invokes
the operation exactly three times with attempt numbers 1, 2, 3 and returns
the error of the third invocation. -/
theorem doThreeAttempts (f : ℕ → GoErr) (cancelled isOver : ℕ → Bool) (fuel : ℕ)
    (hc : ∀ i, cancelled i = false) (ho : ∀ i, isOver i = false) (hf : 3 ≤ fuel) :
    Do ⟨none, 3⟩ (fun a => some (f a)) cancelled isOver fuel =
      some (.ret (some (f 3)), ⟨[1, 2, 3], 1, 2⟩) := by
  obtain ⟨k, rfl⟩ : ∃ k, fuel = k + 3 := ⟨fuel - 3, by omega⟩
  simp [Do, doLoop, hc, ho, shouldRetry]

/-- Witness for C4 at a concrete always-failing operation. -/
theorem doThreeAttemptsWitness :
    Do ⟨none, 3⟩ (fun a => some ⟨a, none⟩) (fun _ => false) (fun _ => false) 3 =
      some (.ret (some ⟨3, none⟩), ⟨[1, 2, 3], 1, 2⟩) :=
  doThreeAttempts (fun a => ⟨a, none⟩) _ _ 3 (fun _ => rfl) (fun _ => rfl) (by omega)

/-- C7: on every estimator state of all three variants, `Add` at a time
strictly before the last recorded time leaves the state entirely unchanged,
and `Rate` at such a time returns the NaN sentinel (and also leaves the state
unchanged). -/
theorem clockRegressionGuard (t : ℕ) (n : ℤ) :
    (∀ s : movingRate, t < s.lastUpdate →
      s.Add t n = some s ∧ s.Rate t = some (.nan, s)) ∧
    (∀ s : MovingRate, t < s.lastUpdate →
      s.Add t n = some s ∧ s.Rate t = some (.nan, s)) ∧
    (∀ s : MovingRateRing, t < s.last →
      s.Add t n = some s ∧ s.Rate t = some (.nan, s)) := by
  refine ⟨fun s h => ⟨?_, ?_⟩, fun s h => ⟨?_, ?_⟩, fun s h => ⟨?_, ?_⟩⟩ <;>
    simp [movingRate.Add, movingRate.Rate, MovingRate.Add, MovingRate.Rate,
      MovingRateRing.Add, MovingRateRing.Rate, h]

/-- Witness for C7: a state whose last recorded time is 10 ns, queried at
5 ns. -/
theorem clockRegressionGuardWitness :
    (({ BucketLength := nsec, BucketNum := 10, counts := [3], lastUpdate := 10 } :
        movingRate).Add 5 1 =
      some { BucketLength := nsec, BucketNum := 10, counts := [3], lastUpdate := 10 }) ∧
    (({ lastUpdate := 10, buckets := [3], pos := 0, numBuckets := 10 } :
        MovingRate).Rate 5 =
      some (.nan, { lastUpdate := 10, buckets := [3], pos := 0, numBuckets := 10 })) ∧
    (({ last := 10, buckets := [3], numBuckets := 0, pos := 0 } :
        MovingRateRing).Add 5 1 =
      some { last := 10, buckets := [3], numBuckets := 0, pos := 0 }) :=
  ⟨((clockRegressionGuard 5 1).1 _ (by decide)).1,
   ((clockRegressionGuard 5 1).2.1 _ (by decide)).2,
   ((clockRegressionGuard 5 1).2.2 _ (by decide)).1⟩

/-- Unfolding of `roundDown` on positive divisors. -/
theorem roundDown_eq (t : ℕ) : roundDown t = t - t % nsec := by
  simp [roundDown, timeRoundDown, nsec]

/-- `time.Second` is a positive number of nanoseconds. -/
theorem nsec_pos : 0 < nsec := by decide

/-- If a time strictly after `last` rounds down past `last`, the computed
whole-second advance is nonzero: the guard `rt.After(lastUpdate)` guarantees
at least one whole elapsed bucket since `lastUpdate`'s boundary. -/
theorem advancePos (bl last t : ℕ) (hbl : 0 < bl) (h : last < t - t % bl) :
    (t - t % bl - (last - last % bl)) / bl ≠ 0 := by
  have hrt : t - t % bl = bl * (t / bl) :=
    Nat.sub_eq_of_eq_add (Nat.div_add_mod t bl).symm
  have hrl : last - last % bl = bl * (last / bl) :=
    Nat.sub_eq_of_eq_add (Nat.div_add_mod last bl).symm
  rw [hrt, hrl]
  rw [hrt] at h
  have h1 : bl * (last / bl) ≤ last := by
    rw [Nat.mul_comm]
    exact Nat.div_mul_le_self last bl
  have hBA : last / bl < t / bl := by
    rcases Nat.lt_or_ge (last / bl) (t / bl) with h' | h'
    · exact h'
    · have h2 : bl * (t / bl) ≤ bl * (last / bl) := Nat.mul_le_mul_left bl h'
      exact absurd h (Nat.not_lt.mpr (le_trans h2 h1))
  have h3 : bl * (last / bl) + bl ≤ bl * (t / bl) := by
    have h4 := Nat.mul_le_mul_left bl (Nat.succ_le_of_lt hBA)
    rw [Nat.mul_succ] at h4
    exact h4
  have h5 : bl ≤ bl * (t / bl) - bl * (last / bl) :=
    Nat.le_sub_of_add_le (by rw [Nat.add_comm]; exact h3)
  exact (Nat.div_pos h5 hbl).ne'

/-- C10: the `adv <= 0` assertion panics in the three window-advance routines
are unreachable: whenever the shift path is taken the advance count is at
least one, so `forward` / `shiftWindow` always return a state (for
`movingRate` under the constructor's guarantee of a positive bucket length,
and for `MovingRateRing` under its constructor's guarantee of a nonempty
bucket slice). -/
theorem shiftPanicFree :
    (∀ (s : movingRate) (t : ℕ), 0 < s.BucketLength → (s.forward t).isSome) ∧
    (∀ (s : MovingRate) (t : ℕ), (s.shiftWindow t).isSome) ∧
    (∀ (s : MovingRateRing) (t : ℕ), s.buckets ≠ [] → (s.shiftWindow t).isSome) := by
  refine ⟨fun s t hbl => ?_, fun s t => ?_, fun s t hne => ?_⟩
  · simp only [movingRate.forward, timeRoundDown, if_neg hbl.ne']
    split_ifs with h1 h2 h3
    · rfl
    · rfl
    · exact absurd h3 (advancePos s.BucketLength s.lastUpdate t hbl (Nat.lt_of_not_ge h2))
    · rfl
  · simp only [MovingRate.shiftWindow, roundDown_eq]
    split_ifs with h1 h2 h3
    · rfl
    · rfl
    · exact absurd h3 (advancePos nsec s.lastUpdate t nsec_pos (Nat.lt_of_not_ge h2))
    · rfl
  · simp only [MovingRateRing.shiftWindow, roundDown_eq]
    split_ifs with h1 h2 h3
    · rfl
    · exact absurd h2
        (advancePos nsec s.last t nsec_pos
          (Nat.lt_of_not_ge (fun hle => h1 (Or.inr hle))))
    · exact absurd (List.length_eq_zero.mp h3) hne
    · rfl

/-- Witness for C10 at concrete states (a fresh `newMovingRate`, a fresh
`NewMovingRate 10`, and a fresh `NewMovingRateRing 10`, each advanced to
`t₀`). -/
theorem shiftPanicFreeWitness :
    (newMovingRate.forward t₀).isSome ∧
    ((NewMovingRate 10).shiftWindow t₀).isSome ∧
    ((NewMovingRateRing 10).shiftWindow t₀).isSome :=
  ⟨shiftPanicFree.1 newMovingRate t₀ (by decide),
   shiftPanicFree.2.1 (NewMovingRate 10) t₀,
   shiftPanicFree.2.2 (NewMovingRateRing 10) t₀ (by decide)⟩

/-- Length of the bucket slice after `movingRate.shift`: the appended zero
buckets are capped at `BucketNum + 1` and the result never exceeds the
`BucketNum + 1` capacity. -/
theorem shift_length (s : movingRate) (n : ℕ) :
    (s.shift n).counts.length =
      min (s.counts.length + min n (s.BucketNum + 1)) (s.BucketNum + 1) := by
  simp only [movingRate.shift, List.length_drop, List.length_append, List.length_replicate]
  omega

/-- The newly exposed buckets after `movingRate.shift` — the final
`min n (BucketNum+1)` of them — are all zero. -/
theorem shift_suffix (s : movingRate) (n : ℕ) :
    (s.shift n).counts.drop ((s.shift n).counts.length - min n (s.BucketNum + 1)) =
      List.replicate (min n (s.BucketNum + 1)) (0 : ℤ) := by
  have h := List.drop_left s.counts (List.replicate (min n (s.BucketNum + 1)) (0 : ℤ))
  simp only [movingRate.shift, List.length_drop, List.length_append, List.length_replicate,
    List.drop_drop]
  convert h using 2
  omega

/-- `addLast` preserves the slice length. -/
theorem addLast_length (l l' : List ℤ) (n : ℤ) (h : addLast l n = some l') :
    l'.length = l.length := by
  unfold addLast at h
  cases hl : l.getLast? with
  | none => rw [hl] at h; exact absurd h (by simp)
  | some x =>
      rw [hl] at h
      have hne : l ≠ [] := by
        intro he
        rw [he] at hl
        simp at hl
      have hpos : 0 < l.length := List.length_pos.mpr hne
      injection h with h'
      rw [← h']
      simp only [List.length_append, List.length_dropLast, List.length_singleton]
      omega

/-- `movingRate.forward` keeps the bucket count within capacity and does not
change the window size. -/
theorem forward_length (s s' : movingRate) (t : ℕ)
    (hb : s.counts.length ≤ s.BucketNum + 1) (hf : s.forward t = some s') :
    s'.counts.length ≤ s.BucketNum + 1 ∧ s'.BucketNum = s.BucketNum := by
  simp only [movingRate.forward] at hf
  split_ifs at hf with h1 h2 h3
  · cases hf
    constructor
    · simp
    · rfl
  · cases hf
    exact ⟨hb, rfl⟩
  · cases hf
    constructor
    · simp only [shift_length]
      omega
    · simp [movingRate.shift]

/-- `ringZero` preserves the slice length. -/
theorem ringZero_length (len : ℕ) :
    ∀ (n pos : ℕ) (l : List ℤ), (ringZero len pos n l).length = l.length := by
  intro n
  induction n with
  | zero => intro pos l; rfl
  | succ k ih =>
      intro pos l
      simp only [ringZero]
      rw [ih]
      simp

/-- `getD` of a slice just updated with zero at the same index is zero (also
out of range, where the default applies). -/
theorem getD_set_same (l : List ℤ) (i : ℕ) (a : ℤ) (h : a = 0) : (l.set i a).getD i 0 = 0 := by
  rw [List.getD_eq_getElem?_getD]
  rcases Nat.lt_or_ge i l.length with h' | h'
  · rw [List.getElem?_set_self (by simpa using h')]
    simp [h]
  · rw [List.getElem?_eq_none (by simpa using h')]
    rfl

/-- `getD` at an index other than the one updated is unchanged. -/
theorem getD_set_ne (l : List ℤ) (i j : ℕ) (a : ℤ) (h : i ≠ j) :
    (l.set i a).getD j 0 = l.getD j 0 := by
  rw [List.getD_eq_getElem?_getD, List.getD_eq_getElem?_getD, List.getElem?_set_ne h]

/-- Stepping the ring cursor once and walking `i` more slots is the same slot
as walking `i + 1` slots from the original cursor. -/
theorem ringIdx_step (len pos i : ℕ) :
    (pos + 1 + (i + 1)) % len = ((pos + 1) % len + 1 + i) % len := by
  conv_rhs => rw [Nat.add_assoc, Nat.mod_add_mod]
  congr 1
  omega

/-- `ringZero` only writes zeros, so a slot holding zero keeps holding zero. -/
theorem ringZero_preserves_zero (len : ℕ) :
    ∀ (n pos j : ℕ) (l : List ℤ), l.getD j 0 = 0 → (ringZero len pos n l).getD j 0 = 0 := by
  intro n
  induction n with
  | zero => intro pos j l h; exact h
  | succ k ih =>
      intro pos j l h
      simp only [ringZero]
      apply ih
      rcases eq_or_ne ((pos + 1) % len) j with hj | hj
      · rw [← hj]
        exact getD_set_same l _ _ rfl
      · rw [getD_set_ne l _ _ _ hj]
        exact h

/-- `ringZero len pos n` zeroes each of the `n` slots following `pos`. -/
theorem ringZero_sets_zero (len : ℕ) :
    ∀ (n pos i : ℕ) (l : List ℤ), i < n →
      (ringZero len pos n l).getD ((pos + 1 + i) % len) 0 = 0 := by
  intro n
  induction n with
  | zero => intro pos i l hi; omega
  | succ k ih =>
      intro pos i l hi
      simp only [ringZero]
      rcases Nat.eq_zero_or_pos i with rfl | hipos
      · rw [Nat.add_zero]
        apply ringZero_preserves_zero
        exact getD_set_same l _ _ rfl
      · obtain ⟨i', rfl⟩ : ∃ i', i = i' + 1 := ⟨i - 1, by omega⟩
        rw [ringIdx_step]
        exact ih ((pos + 1) % len) i' (l.set ((pos + 1) % len) 0) (by omega)

/-- `ringZero len pos n` leaves every slot other than the `n` slots following
`pos` unchanged. -/
theorem ringZero_untouched (len : ℕ) :
    ∀ (n pos j : ℕ) (l : List ℤ), (∀ i, i < n → j ≠ (pos + 1 + i) % len) →
      (ringZero len pos n l).getD j 0 = l.getD j 0 := by
  intro n
  induction n with
  | zero => intro pos j l _; rfl
  | succ k ih =>
      intro pos j l h
      simp only [ringZero]
      rw [ih ((pos + 1) % len) j (l.set ((pos + 1) % len) 0) ?later]
      · exact getD_set_ne l _ _ _ fun hc => h 0 (by omega) (by rw [Nat.add_zero]; exact hc.symm)
      case later =>
        intro i hi hc
        exact h (i + 1) (by omega) (hc.trans (ringIdx_step len pos i).symm)

/-- `MovingRateRing.shiftWindow` never changes the size of the ring. -/
theorem ringShift_length (s s' : MovingRateRing) (t : ℕ) (h : s.shiftWindow t = some s') :
    s'.buckets.length = s.buckets.length := by
  simp only [MovingRateRing.shiftWindow] at h
  split_ifs at h with h1 h2
  · cases h; rfl
  · cases h
    simp [ringZero_length]

/-- When `MovingRateRing.shiftWindow` takes the shift path (a started ring and
a time whose second boundary lies strictly after `last`), it zeroes exactly
the `min (advance, numBuckets+1)` newly exposed slots following the cursor,
leaves every other slot unchanged, and moves the cursor by that amount. -/
theorem ringShift_zeroes (s s' : MovingRateRing) (t : ℕ)
    (hlast : s.last ≠ 0) (hrt : ¬roundDown t ≤ s.last) (hsw : s.shiftWindow t = some s') :
    (∀ i, i < min ((roundDown t - roundDown s.last) / nsec) (s.numBuckets + 1) →
      s'.buckets.getD ((s.pos + 1 + i) % s.buckets.length) 0 = 0) ∧
    (∀ j, (∀ i, i < min ((roundDown t - roundDown s.last) / nsec) (s.numBuckets + 1) →
        j ≠ (s.pos + 1 + i) % s.buckets.length) →
      s'.buckets.getD j 0 = s.buckets.getD j 0) ∧
    s'.pos = (s.pos + min ((roundDown t - roundDown s.last) / nsec) (s.numBuckets + 1)) %
      s.buckets.length := by
  simp only [MovingRateRing.shiftWindow] at hsw
  rw [if_neg (fun hor => hor.elim hlast hrt)] at hsw
  split_ifs at hsw with h1 h2
  cases hsw
  exact ⟨fun i hi => ringZero_sets_zero _ _ _ i _ hi,
    fun j hj => ringZero_untouched _ _ _ j _ hj, rfl⟩

/-- `MovingRateRing.Add` never changes the size of the ring. -/
theorem ringAdd_length (s s' : MovingRateRing) (t : ℕ) (n : ℤ) (h : s.Add t n = some s') :
    s'.buckets.length = s.buckets.length := by
  simp only [MovingRateRing.Add] at h
  split_ifs at h with h1
  · cases h; rfl
  · cases hsw : s.shiftWindow t with
    | none => rw [hsw] at h; exact absurd h (by simp)
    | some mid =>
        rw [hsw] at h
        simp only [Option.some_bind] at h
        split_ifs at h with h2
        · cases h
          simp only [List.length_set]
          exact ringShift_length s mid t hsw

/-- `MovingRateRing.Rate` never changes the size of the ring. -/
theorem ringRate_length (s s' : MovingRateRing) (t : ℕ) (r : GoFloat)
    (h : s.Rate t = some (r, s')) : s'.buckets.length = s.buckets.length := by
  simp only [MovingRateRing.Rate] at h
  split_ifs at h with h1
  · injection h with h'
    rw [Prod.mk.injEq] at h'
    rw [← h'.2]
  · cases hsw : s.shiftWindow t with
    | none => rw [hsw] at h; exact absurd h (by simp)
    | some mid =>
        rw [hsw] at h
        simp only [Option.map_some'] at h
        injection h with h'
        rw [Prod.mk.injEq] at h'
        rw [← h'.2]
        exact ringShift_length s mid t hsw

/-- C8: retention invariants of the window advance.  For `movingRate.shift`:
the capacity after a shift is `min (len + min n (B+1)) (B+1)` — at most
`BucketNum + 1` buckets — and exactly the `min n (BucketNum+1)` newly exposed
buckets are zero; consequently `Add` and `Rate` keep at most `BucketNum + 1`
buckets.  For `MovingRateRing`: `shiftWindow` never changes the ring's size,
so at most `numBuckets + 1` buckets (the constructed capacity) are ever
retained, and neither do `Add` and `Rate`; and whenever the shift path runs
(started ring, second boundary strictly past `last`), it zeroes exactly the
`min (advance, numBuckets+1)` newly exposed slots after the cursor — every
other slot keeps its value — and moves the cursor by that amount. -/
theorem bucketRetention :
    (∀ (s : movingRate) (n : ℕ),
      (s.shift n).counts.length =
          min (s.counts.length + min n (s.BucketNum + 1)) (s.BucketNum + 1) ∧
        (s.shift n).counts.length ≤ s.BucketNum + 1 ∧
        (s.shift n).counts.drop ((s.shift n).counts.length - min n (s.BucketNum + 1)) =
          List.replicate (min n (s.BucketNum + 1)) (0 : ℤ)) ∧
    (∀ (s s' : movingRate) (t : ℕ) (n : ℤ), s.counts.length ≤ s.BucketNum + 1 →
      s.Add t n = some s' → s'.counts.length ≤ s.BucketNum + 1) ∧
    (∀ (s s' : movingRate) (t : ℕ) (r : GoFloat), s.counts.length ≤ s.BucketNum + 1 →
      s.Rate t = some (r, s') → s'.counts.length ≤ s.BucketNum + 1) ∧
    (∀ (s s' : MovingRateRing) (t : ℕ), s.shiftWindow t = some s' →
      s'.buckets.length = s.buckets.length) ∧
    (∀ (s s' : MovingRateRing) (t : ℕ),
      s.last ≠ 0 → ¬roundDown t ≤ s.last → s.shiftWindow t = some s' →
      (∀ i, i < min ((roundDown t - roundDown s.last) / nsec) (s.numBuckets + 1) →
        s'.buckets.getD ((s.pos + 1 + i) % s.buckets.length) 0 = 0) ∧
      (∀ j, (∀ i, i < min ((roundDown t - roundDown s.last) / nsec) (s.numBuckets + 1) →
          j ≠ (s.pos + 1 + i) % s.buckets.length) →
        s'.buckets.getD j 0 = s.buckets.getD j 0) ∧
      s'.pos = (s.pos + min ((roundDown t - roundDown s.last) / nsec) (s.numBuckets + 1)) %
        s.buckets.length) ∧
    (∀ (s s' : MovingRateRing) (t : ℕ) (n : ℤ), s.Add t n = some s' →
      s'.buckets.length = s.buckets.length) ∧
    (∀ (s s' : MovingRateRing) (t : ℕ) (r : GoFloat), s.Rate t = some (r, s') →
      s'.buckets.length = s.buckets.length) := by
  refine ⟨fun s n => ⟨shift_length s n, ?_, shift_suffix s n⟩, ?_, ?_,
    fun s s' t h => ringShift_length s s' t h,
    fun s s' t hlast hrt hsw => ringShift_zeroes s s' t hlast hrt hsw,
    fun s s' t n h => ringAdd_length s s' t n h,
    fun s s' t r h => ringRate_length s s' t r h⟩
  · rw [shift_length]; omega
  · intro s s' t n hb hA
    simp only [movingRate.Add] at hA
    split_ifs at hA with h1
    · cases hA; exact hb
    · cases hf : s.forward t with
      | none => rw [hf] at hA; exact absurd hA (by simp)
      | some mid =>
          rw [hf] at hA
          simp only [Option.some_bind] at hA
          cases hl : addLast mid.counts n with
          | none => rw [hl] at hA; exact absurd hA (by simp)
          | some counts' =>
              rw [hl] at hA
              simp only [Option.map_some'] at hA
              cases hA
              have := forward_length s mid t hb hf
              have hlen := addLast_length mid.counts counts' n hl
              simp only [hlen]
              exact this.1
  · intro s s' t r hb hR
    simp only [movingRate.Rate] at hR
    split_ifs at hR with h1
    · cases hR; exact hb
    · cases hf : s.forward t with
      | none => rw [hf] at hR; exact absurd hR (by simp)
      | some mid =>
          rw [hf] at hR
          simp only [Option.map_some'] at hR
          injection hR with hR'
          have hsnd : mid = s' := congrArg Prod.snd hR'
          rw [← hsnd]
          exact (forward_length s mid t hb hf).1

/-- A started ten-bucket ring (all slots 5, cursor at 0, last update `t₀`)
used to witness the ring clauses of the retention theorem. -/
def ringW : MovingRateRing :=
  { last := t₀, buckets := List.replicate 11 5, numBuckets := 10, pos := 0 }

/-- Witness for C8 at concrete states: a full window shifted by 3 seconds,
one `Add` on a fresh 10-bucket `movingRate`, and a two-second ring advance
exercising the size, zeroing, cursor and `Add`/`Rate` clauses. -/
theorem bucketRetentionWitness :
    (({ BucketLength := nsec, BucketNum := 2, counts := [1, 2, 3], lastUpdate := t₀ } :
        movingRate).shift 3).counts.length ≤ 3 ∧
    (∀ s', ({ BucketLength := nsec, BucketNum := 10, counts := [], lastUpdate := 0 } :
        movingRate).Add t₀ 1 = some s' → s'.counts.length ≤ 11) ∧
    (∀ s', (NewMovingRateRing 10).shiftWindow t₀ = some s' → s'.buckets.length = 11) ∧
    (∀ s', ringW.shiftWindow (t₀ + 2 * nsec) = some s' →
      s'.buckets.getD ((ringW.pos + 1 + 0) % ringW.buckets.length) 0 = 0 ∧
      s'.pos = (ringW.pos + min ((roundDown (t₀ + 2 * nsec) - roundDown ringW.last) / nsec)
        (ringW.numBuckets + 1)) % ringW.buckets.length) ∧
    (∀ s', ringW.Add (t₀ + 2 * nsec) 1 = some s' → s'.buckets.length = ringW.buckets.length) ∧
    (∀ r s', ringW.Rate (t₀ + 2 * nsec) = some (r, s') →
      s'.buckets.length = ringW.buckets.length) := by
  refine ⟨?_, fun s' h => ?_, fun s' h => ?_, fun s' h => ?_, fun s' h => ?_, fun r s' h => ?_⟩
  · have h := (bucketRetention.1
      ({ BucketLength := nsec, BucketNum := 2, counts := [1, 2, 3], lastUpdate := t₀ } :
        movingRate) 3).2.1
    exact h
  · exact bucketRetention.2.1 _ s' t₀ 1 (by decide) h
  · have h2 := bucketRetention.2.2.2.1 (NewMovingRateRing 10) s' t₀ h
    rw [h2]
    decide
  · have h5 := bucketRetention.2.2.2.2.1 ringW s' (t₀ + 2 * nsec) (by decide) (by decide) h
    exact ⟨h5.1 0 (by decide), h5.2.2⟩
  · exact bucketRetention.2.2.2.2.2.1 ringW s' (t₀ + 2 * nsec) 1 h
  · exact bucketRetention.2.2.2.2.2.2 ringW s' (t₀ + 2 * nsec) r h

/-- Go's float-to-duration truncation is monotone. -/
theorem goDur_mono {q q' : ℚ} (h : q ≤ q') : goDur q ≤ goDur q' := by
  unfold goDur
  split_ifs with h1 h2
  · have h3 := Int.floor_le_floor (neg_le_neg h)
    omega
  · have h3 : (0 : ℤ) ≤ ⌊q'⌋ := Int.floor_nonneg.mpr (not_lt.mp h2)
    have h4 : (0 : ℤ) ≤ ⌊-q⌋ := Int.floor_nonneg.mpr (by linarith)
    omega
  · linarith
  · exact Int.floor_le_floor h

/-- Truncation is the identity on integral values. -/
theorem goDur_intCast (z : ℤ) : goDur (z : ℚ) = z := by
  unfold goDur
  split_ifs with h
  · rw [← Int.cast_neg, Int.floor_intCast]
    omega
  · exact Int.floor_intCast z

/-- C6: for a backoff configuration with `Min ≤ Max` and `Factor ≥ 1`, the
computed interval is monotone in the attempt number when no random source is
configured, and for any configuration with `Jitter` in `[0,1]` (indeed for
any jitter and any random sample) `Next` always returns a duration within
`[Min, Max]`. -/
theorem backoffNextContract (b : IntervalBackOff) (hmm : b.Min ≤ b.Max) (hf : 1 ≤ b.Factor) :
    (b.Rand = none → ∀ a a' : ℕ, a ≤ a' → (b.Next a).1 ≤ (b.Next a').1) ∧
    (0 ≤ b.Jitter → b.Jitter ≤ 1 → ∀ a : ℕ, b.Min ≤ (b.Next a).1 ∧ (b.Next a).1 ≤ b.Max) := by
  constructor
  · intro hR a a' haa'
    simp only [IntervalBackOff.Next, hR]
    rcases le_or_lt 0 b.Min with hmin | hmin
    · have hq : (b.Min : ℚ) * b.Factor ^ a ≤ (b.Min : ℚ) * b.Factor ^ a' :=
        mul_le_mul_of_nonneg_left (pow_le_pow_right₀ hf haa') (by exact_mod_cast hmin)
      have hd := goDur_mono hq
      split_ifs <;> dsimp only <;> omega
    · have key : ∀ x : ℕ, goDur ((b.Min : ℚ) * b.Factor ^ x) ≤ b.Min := by
        intro x
        have hp : (1 : ℚ) ≤ b.Factor ^ x := by
          calc (1 : ℚ) = b.Factor ^ 0 := (pow_zero _).symm
            _ ≤ b.Factor ^ x := pow_le_pow_right₀ hf (Nat.zero_le x)
        have h1 : (b.Min : ℚ) * b.Factor ^ x ≤ (b.Min : ℚ) * 1 :=
          mul_le_mul_of_nonpos_left hp (by exact_mod_cast hmin.le)
        calc goDur ((b.Min : ℚ) * b.Factor ^ x) ≤ goDur ((b.Min : ℚ) * 1) := goDur_mono h1
          _ = b.Min := by rw [mul_one, goDur_intCast]
      have k1 := key a
      have k2 := key a'
      split_ifs <;> dsimp only <;> omega
  · intro hj1 hj2 a
    simp only [IntervalBackOff.Next]
    cases hR : b.Rand with
    | none =>
        dsimp only
        split_ifs <;> dsimp only <;> omega
    | some rs =>
        dsimp only
        split_ifs <;> dsimp only <;> omega

/-- The `PolicyDefault` backoff configuration (500 ms to one minute, factor
1.5, jitter 0.5) with no random source. -/
def defaultBackOff : IntervalBackOff :=
  { Min := 500000000, Max := 60000000000, Factor := 3 / 2, Jitter := 1 / 2, Rand := none }

/-- Witness for C6 at the `PolicyDefault` configuration without jitter. -/
theorem backoffNextContractWitness :
    (defaultBackOff.Next 1).1 ≤ (defaultBackOff.Next 2).1 ∧
    (500000000 : ℤ) ≤ (defaultBackOff.Next 4).1 ∧
    (defaultBackOff.Next 4).1 ≤ 60000000000 :=
  ⟨(backoffNextContract defaultBackOff (by decide) (by decide)).1 rfl 1 2 (by omega),
   (backoffNextContract defaultBackOff (by decide) (by decide)).2 (by decide) (by decide) 4⟩

/-- C9 (amended): `Explain` never mutates the backoff configuration fields,
and when no random source is configured it has no effect at all, so
interposing it between two `Next` calls leaves the returned durations
unchanged; when a random source is configured, `Explain` consumes exactly one
sample from the shared source, advancing its state. -/
theorem explainEffects (b : IntervalBackOff) (x a : ℕ) :
    (b.Rand = none → (b.Explain x).2 = b ∧ (b.Explain x).2.Next a = b.Next a) ∧
    (∀ rs, b.Rand = some rs →
      (b.Explain x).2 = { b with Rand := some { rs with idx := rs.idx + 1 } }) := by
  constructor
  · intro hR
    have h2 : (b.Explain x).2 = b := by
      simp only [IntervalBackOff.Explain, hR]
    exact ⟨h2, by rw [h2]⟩
  · intro rs hR
    simp only [IntervalBackOff.Explain, hR, RandState.next]

/-- A deterministic sample stream for probing the shared random source. -/
def explainProbeRand : RandState :=
  { seq := fun n => if n = 1 then 3 / 4 else 1 / 2, idx := 0 }

/-- A jittered configuration sharing `explainProbeRand`. -/
def explainProbeBackOff : IntervalBackOff :=
  { Min := 100, Max := 1000000, Factor := 1, Jitter := 1 / 2, Rand := some explainProbeRand }

/-- Witness for C9 at a jitter-free configuration and at a jittered one. -/
theorem explainEffectsWitness :
    ((defaultBackOff.Explain 3).2 = defaultBackOff ∧
      (defaultBackOff.Explain 3).2.Next 2 = defaultBackOff.Next 2) ∧
    (explainProbeBackOff.Explain 3).2 =
      { explainProbeBackOff with Rand := some { explainProbeRand with idx := 1 } } :=
  ⟨(explainEffects defaultBackOff 3 2).1 rfl,
   (explainEffects explainProbeBackOff 3 0).2 explainProbeRand rfl⟩

/-- C9, counterexample: with a random source configured, `Explain` is not
side-effect free.  After one `Next`, a second `Next` returns 125 ns, but if a
call to `Explain` is interposed it consumes the next sample and the second
`Next` returns 100 ns instead. -/
theorem explainConsumesRand :
    ((explainProbeBackOff.Next 0).2.Next 0).1 = 125 ∧
    ((((explainProbeBackOff.Next 0).2.Explain 5).2.Next 0).1 = 100) ∧
    ((explainProbeBackOff.Next 0).2.Next 0).1 ≠
      (((explainProbeBackOff.Next 0).2.Explain 5).2.Next 0).1 :=
  ⟨by decide, by decide, by decide⟩

/-- `ringZero` only writes zeros: it preserves an all-zero bucket slice. -/
theorem ringZero_allZero (len : ℕ) :
    ∀ (n pos : ℕ) (l : List ℤ), (∀ x ∈ l, x = 0) →
      ∀ x ∈ ringZero len pos n l, x = 0 := by
  intro n
  induction n with
  | zero => intro pos l h; exact h
  | succ k ih =>
      intro pos l h
      simp only [ringZero]
      apply ih
      intro x hx
      rcases List.mem_or_eq_of_mem_set hx with h' | h'
      · exact h x h'
      · exact h'

/-- `MovingRateRing.shiftWindow` preserves an all-zero bucket slice. -/
theorem ringShift_allZero (s s' : MovingRateRing) (t : ℕ) (h : ∀ x ∈ s.buckets, x = 0)
    (hsw : s.shiftWindow t = some s') : ∀ x ∈ s'.buckets, x = 0 := by
  simp only [MovingRateRing.shiftWindow] at hsw
  split_ifs at hsw with h1 h2
  · cases hsw; exact h
  · cases hsw
    exact ringZero_allZero _ _ _ _ h

/-- The summation loop of `MovingRateRing.Rate` skips every bucket of an
all-zero slice. -/
theorem ringCollect_allZero (buckets : List ℤ) (h : ∀ x ∈ buckets, x = 0) :
    ∀ (n pos : ℕ) (acc : RingSum), ringCollect buckets pos n acc = acc := by
  intro n
  induction n with
  | zero => intro pos acc; rfl
  | succ k ih =>
      intro pos acc
      simp only [ringCollect]
      have hv : buckets.getD ((pos + 1) % buckets.length) 0 = 0 := by
        rw [List.getD_eq_getElem?_getD]
        cases hg : buckets[(pos + 1) % buckets.length]? with
        | none => simp [hg]
        | some v =>
            obtain ⟨hlt, hv⟩ := List.getElem?_eq_some.mp hg
            have hm := h _ (hv ▸ List.getElem_mem hlt)
            simp [hg, hm]
      rw [if_pos hv]
      exact ih _ _

/-- Division of float zero by a nonzero float is float zero. -/
theorem goDivQ_zero {x : ℚ} (hx : x ≠ 0) : goDivQ 0 x = .val 0 := by
  simp [goDivQ, GoFloat.div, hx]

/-- On a state whose buckets are all zero, `MovingRateRing.Rate` yields
either the NaN sentinel (for a query before `last`) or a zero rate. -/
theorem ringRate_allZero (s : MovingRateRing) (now : ℕ) (h : ∀ x ∈ s.buckets, x = 0)
    (v : GoFloat) (s' : MovingRateRing) (hR : s.Rate now = some (v, s')) :
    v = .nan ∨ v = .val 0 := by
  simp only [MovingRateRing.Rate] at hR
  split_ifs at hR with h1
  · left
    injection hR with h'
    rw [Prod.mk.injEq] at h'
    exact h'.1.symm
  · cases hsw : s.shiftWindow now with
    | none => rw [hsw] at hR; exact absurd hR (by simp)
    | some mid =>
        rw [hsw] at hR
        simp only [Option.map_some'] at hR
        injection hR with h'
        rw [Prod.mk.injEq] at h'
        have hv := h'.1
        have hmidz : ∀ x ∈ mid.buckets, x = 0 := ringShift_allZero s mid now h hsw
        have hacc : ringCollect mid.buckets mid.pos mid.buckets.length ⟨0, 0, 0⟩ = ⟨0, 0, 0⟩ :=
          ringCollect_allZero mid.buckets hmidz _ _ _
        right
        rw [← hv]
        rw [hacc]
        dsimp only
        have h6 : roundDown mid.last = mid.last - mid.last % nsec := roundDown_eq mid.last
        have h7 : mid.last % nsec < nsec := Nat.mod_lt _ nsec_pos
        have h8 : nsec = 1000000000 := rfl
        split_ifs with hcase hsec hsec
        · exact goDivQ_zero (by norm_num [nsec])
        · exfalso
          omega
        · rw [mul_zero, add_zero]
          exact goDivQ_zero (by norm_num [nsec])
        · rw [mul_zero, add_zero]
          apply goDivQ_zero
          apply div_ne_zero _ (by norm_num [nsec])
          have h9 : (nsec : ℤ) ≤ (mid.numBuckets : ℤ) * (nsec : ℤ) := not_lt.mp hsec
          have hpos : (0 : ℤ) < (mid.numBuckets : ℤ) * (nsec : ℤ) := by omega
          have hq : (0 : ℚ) < (((mid.numBuckets : ℤ) * (nsec : ℤ) : ℤ) : ℚ) := by
            exact_mod_cast hpos
          exact ne_of_gt hq

/-- C3: the over-budget predicate.  Writing `fr`/`sr` for the failure and
success rates computed at `now`: whenever `fr` is float zero (in particular
whenever no failures were ever recorded, for any success volume — the fourth
conjunct, stated as: the failure estimator's buckets are all zero),
`IsOver` is `false`; otherwise it is exactly the IEEE comparison
`fr / sr > ratio`, which for `sr = 0` and `fr > 0` divides to `+∞` rather
than faulting, and so yields `true`. -/
theorem isOverContract :
    (∀ (b : budgetState) (now : ℕ) (r : Bool) (b' : budgetState)
      (fr sr : GoFloat) (f' s' : MovingRateRing),
      b.failure.Rate now = some (fr, f') → b.success.Rate now = some (sr, s') →
      b.IsOver now = some (r, b') →
      ((fr = GoFloat.val 0 → r = false) ∧
        (fr ≠ GoFloat.val 0 → r = GoFloat.lt (GoFloat.val b.ratio) (GoFloat.div fr sr)) ∧
        (∀ q : ℚ, sr = GoFloat.val 0 → fr = GoFloat.val q → 0 < q → r = true))) ∧
    (∀ (b : budgetState) (now : ℕ) (r : Bool) (b' : budgetState),
      (∀ x ∈ b.failure.buckets, x = 0) → b.IsOver now = some (r, b') → r = false) := by
  constructor
  · intro b now r b' fr sr f' s' hf hs hIs
    simp only [budgetState.IsOver, hf, hs, Option.some_bind] at hIs
    injection hIs with h'
    rw [Prod.mk.injEq] at h'
    have hr := h'.1
    refine ⟨fun h0 => ?_, fun h0 => ?_, fun q hs0 hq hqpos => ?_⟩
    · rw [← hr, if_pos h0]
    · rw [← hr, if_neg h0]
    · have h0 : fr ≠ GoFloat.val 0 := by
        rw [hq]
        intro hc
        injection hc with hc'
        exact absurd hc' (ne_of_gt hqpos)
      rw [← hr, if_neg h0, hq, hs0]
      simp [GoFloat.div, GoFloat.lt, hqpos, ne_of_gt hqpos]
  · intro b now r b' hz hIs
    cases hf : b.failure.Rate now with
    | none =>
        simp only [budgetState.IsOver, hf, Option.none_bind] at hIs
        exact absurd hIs (by simp)
    | some fp =>
        cases hs : b.success.Rate now with
        | none =>
            simp only [budgetState.IsOver, hf, hs, Option.some_bind, Option.none_bind] at hIs
            exact absurd hIs (by simp)
        | some sp =>
            simp only [budgetState.IsOver, hf, hs, Option.some_bind] at hIs
            injection hIs with h'
            rw [Prod.mk.injEq] at h'
            have hr := h'.1
            rcases ringRate_allZero b.failure now hz fp.1 fp.2 (by rw [hf]) with hfr | hfr
            · rw [← hr, if_neg (by rw [hfr]; intro hc; cases hc)]
              rw [hfr]
              simp [GoFloat.div, GoFloat.lt]
            · rw [← hr, if_pos hfr]

/-- Witness for C3: a fresh one-minute budget with ratio 0.1 is not over
budget at `t₀`. -/
theorem isOverContractWitness :
    ((NewBudget (1 / 10)).IsOver t₀).map Prod.fst = some false := by
  have hsome : ((NewBudget (1 / 10)).IsOver t₀).isSome = true := by decide
  cases hIs : (NewBudget (1 / 10)).IsOver t₀ with
  | none =>
      rw [hIs] at hsome
      exact absurd hsome (by simp)
  | some p =>
      have hr := isOverContract.2 (NewBudget (1 / 10)) t₀ p.1 p.2 (by decide) (by rw [hIs])
      rw [Option.map_some', hr]
